import Mathlib

/-! Shallow embedding of the arraycollect crate (src/lib.rs and src/array.rs).

Modeling conventions:
* A `MaybeUninit<T>` cell is an `Option T`: `none` is an uninitialized cell,
  `some x` a cell holding the value `x`; `MaybeUninit::new(src)` is `some src`,
  and reading an initialized cell back out (the `transmute` in `into_filled`,
  the `ptr::read` in `from_iter`) is `List.filterMap id`.
* An iterator handed to the library is modeled as the list of values it will
  yield.  The collecting functions return, alongside their result, the list of
  values the iterator still holds, so that consumption is observable.
* Both fill loops are `for (src, dst) in iter.zip(slots.iter_mut())` with the
  user iterator in first position.  The default `Zip::next` of the Rust core
  library pulls from the first iterator and only then polls the second; when
  the slot side is already exhausted, the element just pulled from the user
  iterator is discarded.  The loop functions below mirror exactly that beat
  structure: on each beat, first match on the iterator, then test the cursor
  of the slot iterator against the slot count.
* A `Drop` implementation is modeled as a function from the dropped value to
  the list of element values it destroys, listed in destruction order.
-/

namespace Arraycollect

/-- `FillError` from src/lib.rs: the failure value carrying how many slots
were filled and the capacity of the target array. -/
structure FillError where
  filled : Nat
  capacity : Nat
deriving DecidableEq

/-- `FillError::new(filled, capacity)`. -/
def FillError.new (filled capacity : Nat) : FillError :=
  { filled := filled, capacity := capacity }

/-- The `PartialArray<T>` struct declared by the `arraycollect!` expansion:
an array of `N` `MaybeUninit<T>` cells together with the `filled` counter. -/
structure PartialArray (T : Type) (N : Nat) where
  data : List (Option T)
  filled : Nat
deriving DecidableEq

/-- `PartialArray::new()`: all `N` cells uninitialized, `filled = 0`. -/
def PartialArray.new (T : Type) (N : Nat) : PartialArray T N :=
  { data := List.replicate N none, filled := 0 }

/-- `PartialArray::is_filled()`: `self.filled == $size`. -/
def PartialArray.is_filled {T : Type} {N : Nat} (self : PartialArray T N) : Bool :=
  self.filled == N

/-- Output of a fill loop: the slot array and fill counter after the loop,
plus the values the user iterator still holds (everything not consumed). -/
structure LoopOut (T : Type) where
  data : List (Option T)
  filled : Nat
  rest : List T
deriving DecidableEq

/-- The `for (src, dst) in iter.zip(self.data.iter_mut())` loop of
`PartialArray::collect` (src/lib.rs lines 156-159).  Arguments: the user
iterator, the slot array, the `filled` counter, and the position of the
`iter_mut` slot iterator.  Each beat pulls `src` from the user iterator
(stopping if it is exhausted), then polls the slot iterator: if a slot is
available the body runs (`*dst = MaybeUninit::new(src); self.filled += 1;`),
otherwise the loop ends and the pulled `src` is discarded. -/
def zipFillLoop {T : Type} : List T → List (Option T) → Nat → Nat → LoopOut T
  | [], data, filled, _cursor => { data := data, filled := filled, rest := [] }
  | src :: iterRest, data, filled, cursor =>
    if cursor < data.length then
      zipFillLoop iterRest (data.set cursor (some src)) (filled + 1) (cursor + 1)
    else
      { data := data, filled := filled, rest := iterRest }

/-- `PartialArray::collect(self, iter)` (src/lib.rs lines 152-167): run the
fill loop, then return `Ok(self)` if `is_filled`, else
`Err(FillError::new(filled, $size))`.  The unconsumed remainder of the
iterator is returned alongside. -/
def PartialArray.collect {T : Type} {N : Nat} (self : PartialArray T N) (iter : List T) :
    Except FillError (PartialArray T N) × List T :=
  let out := zipFillLoop iter self.data self.filled 0
  let afterLoop : PartialArray T N := { data := out.data, filled := out.filled }
  if afterLoop.is_filled then
    (Except.ok afterLoop, out.rest)
  else
    (Except.error (FillError.new afterLoop.filled N), out.rest)

/-- `Drop for PartialArray` (src/lib.rs lines 170-188): `drop_in_place` on the
slice `self.data[..self.filled]` reinterpreted as `[T]`, i.e. it destroys the
values of the first `filled` cells, in forward index order.  The result is
the list of destroyed values in destruction order. -/
def PartialArray.droppedOnDrop {T : Type} {N : Nat} (self : PartialArray T N) : List T :=
  (self.data.take self.filled).filterMap id

/-- The `FilledArray<T>` struct of the `arraycollect!` expansion: the fully
initialized array plus the (unused) `_filled` field, mirrored as
`filledField`. -/
structure FilledArray (T : Type) (N : Nat) where
  data : List T
  filledField : Nat
deriving DecidableEq

/-- `FilledArray::data(self)`: move the array out. -/
def FilledArray.dataOut {T : Type} {N : Nat} (self : FilledArray T N) : List T :=
  self.data

/-- The first statement of `PartialArray::into_filled` (src/lib.rs line 200):
`self.filled = 0;`, neutralizing the cleanup responsibility of the builder. -/
def PartialArray.neutralized {T : Type} {N : Nat} (self : PartialArray T N) :
    PartialArray T N :=
  { data := self.data, filled := 0 }

/-- `PartialArray::into_filled` (src/lib.rs lines 199-202): set `filled := 0`,
then `mem::transmute` the `PartialArray` into a `FilledArray`, reading every
`MaybeUninit<T>` cell as a `T`. -/
def PartialArray.into_filled {T : Type} {N : Nat} (self : PartialArray T N) :
    FilledArray T N :=
  { data := self.neutralized.data.filterMap id, filledField := self.neutralized.filled }

/-- `PartialArray::into_array` (src/lib.rs lines 205-207). -/
def PartialArray.into_array {T : Type} {N : Nat} (self : PartialArray T N) : List T :=
  self.into_filled.dataOut

/-- The expression the `arraycollect!` macro expands to (src/lib.rs lines
210-214): `PartialArray::new().collect(iter).map(|p| p.into_array())`,
returned together with the unconsumed remainder of the iterator. -/
def arraycollect {T : Type} (N : Nat) (iter : List T) :
    Except FillError (List T) × List T :=
  let r := (PartialArray.new T N).collect iter
  (r.1.map (fun p => p.into_array), r.2)

/-- `ScopeExitGuard` as instantiated in `FromIter::from_iter`
(src/array.rs lines 44-51 and 71-81): `value` is the `&mut [MaybeUninit<T>]`
slice over the slot array, `data` is the length counter.  The closure field
`f` is the fixed cleanup closure of `from_iter`, modeled by
`ScopeExitGuard.droppedOnDrop`. -/
structure ScopeExitGuard (T : Type) where
  value : List (Option T)
  data : Nat
deriving DecidableEq

/-- `Drop for ScopeExitGuard` (src/array.rs lines 53-60) with the closure set
up in `from_iter` (lines 75-80): `(self.f)(&self.data, &mut self.value)`
drops `value[..data]` in place as `[T]`.  It reads the live values of the
`data` and `value` fields at the moment the drop runs. -/
def ScopeExitGuard.droppedOnDrop {T : Type} (g : ScopeExitGuard T) : List T :=
  (g.value.take g.data).filterMap id

/-- The success-path neutralization of the guard (src/array.rs lines 95-96):
`guard.value = &mut []; guard.data = 0;` (followed by `mem::forget(guard)`,
which additionally prevents its drop from ever running). -/
def ScopeExitGuard.neutralized {T : Type} (_g : ScopeExitGuard T) : ScopeExitGuard T :=
  { value := [], data := 0 }

/-- The `for (src, dst) in iter.into_iter().zip(guard.value.iter_mut())` loop
of `FromIter::from_iter` (src/array.rs lines 84-89).  Same beat structure as
`zipFillLoop`: pull `src` first, then poll the slot iterator; the body is
`ptr::write(dst, MaybeUninit::new(src)); guard.data += 1;`. -/
def fromIterLoop {T : Type} : List T → List (Option T) → Nat → Nat → LoopOut T
  | [], value, len, _cursor => { data := value, filled := len, rest := [] }
  | src :: iterRest, value, len, cursor =>
    if cursor < value.length then
      fromIterLoop iterRest (value.set cursor (some src)) (len + 1) (cursor + 1)
    else
      { data := value, filled := len, rest := iterRest }

/-- `<[T; N] as FromIter<T>>::from_iter(iter)` (src/array.rs lines 63-112):
make the uninitialized slot array, set up the guard, run the fill loop; if
`guard.data == N`, neutralize and forget the guard and `ptr::read` the slot
array as `[T; N]`; otherwise return `FillError::new(guard.data, N)` (the
guard's drop runs on that path). -/
def fromIter {T : Type} (N : Nat) (iter : List T) :
    Except FillError (List T) × List T :=
  let guard0 : ScopeExitGuard T := { value := List.replicate N none, data := 0 }
  let out := fromIterLoop iter guard0.value guard0.data 0
  if out.filled = N then
    (Except.ok (out.data.filterMap id), out.rest)
  else
    (Except.error (FillError.new out.filled N), out.rest)

/-- Ghost helper describing what the fill loop writes: store the values `xs`
into consecutive cells starting at position `c`. -/
def writeFrom {T : Type} : List (Option T) → Nat → List T → List (Option T)
  | data, _, [] => data
  | data, c, x :: xs => writeFrom (data.set c (some x)) (c + 1) xs

/-- The in-loop state of either fill loop: slot array, `filled` counter, and
the position of the slot (`iter_mut`) iterator. -/
structure LoopSt (T : Type) where
  data : List (Option T)
  filled : Nat
  cursor : Nat
deriving DecidableEq

/-- One successful pairing of the fill loop: write the element into the slot
at the cursor, increment the fill counter by one, advance the slot cursor. -/
def fillStep {T : Type} (s : LoopSt T) (src : T) : LoopSt T :=
  { data := s.data.set s.cursor (some src), filled := s.filled + 1, cursor := s.cursor + 1 }

/-- The loop state right after construction (`PartialArray::new` /
`PartialArray::uninit` plus a fresh guard): all cells uninitialized,
`filled = 0`, slot iterator at the front. -/
def initSt (T : Type) (N : Nat) : LoopSt T :=
  { data := List.replicate N none, filled := 0, cursor := 0 }

/-- The loop state after at most `j` beats of the fill loop against iterator
`xs`: the state reached when the producer stops (or panics) after yielding
`j` elements.  Once the loop has exited (slot side exhausted) the state no
longer changes. -/
def runFor {T : Type} : Nat → List T → LoopSt T → LoopSt T
  | 0, _, s => s
  | _ + 1, [], s => s
  | j + 1, x :: iterRest, s =>
    if s.cursor < s.data.length then runFor j iterRest (fillStep s x) else s

/-- The contiguous-prefix invariant of the builder: the slot cursor and the
fill counter are in lockstep, the counter is at most `N`, the cells
`[0, filled)` hold exactly the elements `produced` so far in production
order, and the cells `[filled, N)` are uninitialized. -/
def Inv {T : Type} (N : Nat) (produced : List T) (s : LoopSt T) : Prop :=
  s.cursor = s.filled ∧ s.filled ≤ N ∧ produced.length = s.filled ∧
    s.data = produced.map some ++ List.replicate (N - s.filled) none

/-- The `PartialArray` value alive when `collect` on a fresh builder returns:
the value whose `Drop` runs at the end of `collect` on the error path. -/
def underState (T : Type) (N : Nat) (xs : List T) : PartialArray T N :=
  { data := (zipFillLoop xs (List.replicate N none) 0 0).data,
    filled := (zipFillLoop xs (List.replicate N none) 0 0).filled }

/-- The guard value alive when the fill loop of `from_iter` on a fresh slot
array ends: the value whose `Drop` runs on the error path of `from_iter`. -/
def guardAtExit (T : Type) (N : Nat) (xs : List T) : ScopeExitGuard T :=
  { value := (fromIterLoop xs (List.replicate N none) 0 0).data,
    data := (fromIterLoop xs (List.replicate N none) 0 0).filled }

/-- The builder state after `j` beats of the fill loop against iterator `xs`,
starting from a freshly constructed builder: the state seen by the cleanup
finalizer if the builder is discarded at that moment (producer exhausted, or
unwinding entered the loop there). -/
def stateAt (T : Type) (N : Nat) (xs : List T) (j : Nat) : LoopSt T :=
  runFor j xs (initSt T N)

/-! Helper lemmas about the fill loops. -/

lemma set_append_length {T : Type} (l₁ l₂ : List (Option T)) (v : Option T) :
    (l₁ ++ l₂).set l₁.length v = l₁ ++ l₂.set 0 v := by
  induction l₁ with
  | nil => rfl
  | cons a l ih => simp [List.set, ih]

lemma filterMap_id_map_some {T : Type} (xs : List T) :
    (xs.map some).filterMap id = xs := by
  simp [List.filterMap_map]

lemma writeFrom_invariant {T : Type} (xs : List T) :
    ∀ (as : List T) (m : Nat), xs.length ≤ m →
      writeFrom (as.map some ++ List.replicate m none) as.length xs
        = (as ++ xs).map some ++ List.replicate (m - xs.length) none := by
  induction xs with
  | nil => intro as m _; simp [writeFrom]
  | cons x xs ih =>
    intro as m h
    match m with
    | m + 1 =>
      have hx : xs.length ≤ m := by simpa using h
      have hset : (as.map some ++ List.replicate (m + 1) (none : Option T)).set
          as.length (some x) = (as ++ [x]).map some ++ List.replicate m none := by
        have := set_append_length (as.map some) (List.replicate (m + 1) none) (some x)
        simp only [List.length_map] at this
        rw [this, List.replicate_succ]
        simp
      calc writeFrom (as.map some ++ List.replicate (m + 1) none) as.length (x :: xs)
          = writeFrom ((as ++ [x]).map some ++ List.replicate m none) (as.length + 1) xs := by
            rw [writeFrom, hset]
        _ = (as ++ x :: xs).map some ++ List.replicate (m + 1 - (x :: xs).length) none := by
            have harg : (as ++ [x]).length = as.length + 1 := by simp
            have hih := ih (as ++ [x]) m hx
            rw [harg] at hih
            rw [hih]
            simp [List.length_cons, Nat.succ_sub_succ]

lemma zipFillLoop_under {T : Type} (xs : List T) :
    ∀ (data : List (Option T)) (f c : Nat), c + xs.length ≤ data.length →
      zipFillLoop xs data f c =
        { data := writeFrom data c xs, filled := f + xs.length, rest := [] } := by
  induction xs with
  | nil => intro data f c _; simp [zipFillLoop, writeFrom]
  | cons x xs ih =>
    intro data f c h
    simp only [List.length_cons] at h
    have hc : c < data.length := by omega
    rw [zipFillLoop, if_pos hc,
      ih (data.set c (some x)) (f + 1) (c + 1) (by simp [List.length_set]; omega)]
    simp only [writeFrom, List.length_cons, LoopOut.mk.injEq, true_and, and_true]
    omega

lemma zipFillLoop_over {T : Type} (xs : List T) :
    ∀ (data : List (Option T)) (f c : Nat),
      c ≤ data.length → data.length < c + xs.length →
      zipFillLoop xs data f c =
        { data := writeFrom data c (xs.take (data.length - c)),
          filled := f + (data.length - c),
          rest := xs.drop (data.length - c + 1) } := by
  induction xs with
  | nil => intro data f c h₁ h₂; simp at h₂; omega
  | cons x xs ih =>
    intro data f c h₁ h₂
    simp only [List.length_cons] at h₂
    by_cases hc : c < data.length
    · rw [zipFillLoop, if_pos hc,
        ih (data.set c (some x)) (f + 1) (c + 1) (by simp [List.length_set]; omega)
          (by simp [List.length_set]; omega)]
      have hdc : data.length - c = (data.length - (c + 1)) + 1 := by omega
      simp only [List.length_set, hdc, List.take_succ_cons, writeFrom, List.drop_succ_cons,
        List.length_cons, LoopOut.mk.injEq, true_and, and_true]
      omega
    · have hceq : c = data.length := by omega
      rw [zipFillLoop, if_neg hc]
      simp [hceq, writeFrom]

lemma zipFillLoop_new_under {T : Type} (N : Nat) (xs : List T) (h : xs.length ≤ N) :
    zipFillLoop xs (List.replicate N none) 0 0 =
      { data := xs.map some ++ List.replicate (N - xs.length) none,
        filled := xs.length, rest := [] } := by
  rw [zipFillLoop_under xs (List.replicate N none) 0 0 (by simpa using h)]
  have := writeFrom_invariant xs [] N h
  simp only [List.map_nil, List.nil_append, List.length_nil] at this
  simp [this]

lemma zipFillLoop_new_over {T : Type} (N : Nat) (xs : List T) (h : N < xs.length) :
    zipFillLoop xs (List.replicate N none) 0 0 =
      { data := (xs.take N).map some, filled := N, rest := xs.drop (N + 1) } := by
  rw [zipFillLoop_over xs (List.replicate N none) 0 0 (by simp) (by simpa using h)]
  have := writeFrom_invariant (xs.take N) [] N (by simp)
  simp only [List.map_nil, List.nil_append, List.length_nil] at this
  simp only [List.length_replicate, Nat.sub_zero, this]
  simp [Nat.le_of_lt h]

lemma fromIterLoop_eq_zipFillLoop {T : Type} (xs : List T) :
    ∀ (data : List (Option T)) (f c : Nat),
      fromIterLoop xs data f c = zipFillLoop xs data f c := by
  induction xs with
  | nil => intro data f c; rfl
  | cons x xs ih =>
    intro data f c
    rw [fromIterLoop, zipFillLoop]
    by_cases hc : c < data.length
    · rw [if_pos hc, if_pos hc, ih]
    · rw [if_neg hc, if_neg hc]

lemma take_map_some_append {T : Type} (pre : List T) (tail : List (Option T)) :
    (pre.map some ++ tail).take pre.length = pre.map some := by
  rw [show pre.length = (pre.map some).length by simp, List.take_left]

lemma drop_map_some_append {T : Type} (pre : List T) (tail : List (Option T)) :
    (pre.map some ++ tail).drop pre.length = tail := by
  rw [show pre.length = (pre.map some).length by simp, List.drop_left]

lemma filterMap_id_take_map_some {T : Type} (n : Nat) (xs : List T) :
    (List.take n (xs.map some)).filterMap id = xs.take n := by
  rw [← List.map_take, filterMap_id_map_some]

lemma arraycollect_eq_fromIter_aux {T : Type} (N : Nat) (xs : List T) :
    arraycollect N xs = fromIter N xs := by
  unfold arraycollect fromIter PartialArray.collect PartialArray.new
  simp only [fromIterLoop_eq_zipFillLoop]
  by_cases h : (zipFillLoop xs (List.replicate N (none : Option T)) 0 0).filled = N
  · simp [PartialArray.is_filled, h, PartialArray.into_array, PartialArray.into_filled,
      PartialArray.neutralized, FilledArray.dataOut, Except.map]
  · simp [PartialArray.is_filled, h, FillError.new, Except.map]

lemma arraycollect_exact_aux {T : Type} (N : Nat) (xs : List T) (h : xs.length = N) :
    arraycollect N xs = (Except.ok xs, []) := by
  unfold arraycollect PartialArray.collect PartialArray.new
  rw [zipFillLoop_new_under N xs (Nat.le_of_eq h)]
  simp [PartialArray.is_filled, h, PartialArray.into_array, PartialArray.into_filled,
    PartialArray.neutralized, FilledArray.dataOut, filterMap_id_map_some, Except.map]

lemma arraycollect_under_aux {T : Type} (N : Nat) (xs : List T) (h : xs.length < N) :
    arraycollect N xs = (Except.error (FillError.new xs.length N), []) := by
  unfold arraycollect PartialArray.collect PartialArray.new
  rw [zipFillLoop_new_under N xs (Nat.le_of_lt h)]
  simp [PartialArray.is_filled, Nat.ne_of_lt h, FillError.new, Except.map]

lemma arraycollect_over_aux {T : Type} (N : Nat) (xs : List T) (h : N < xs.length) :
    arraycollect N xs = (Except.ok (xs.take N), xs.drop (N + 1)) := by
  unfold arraycollect PartialArray.collect PartialArray.new
  rw [zipFillLoop_new_over N xs h]
  simp [PartialArray.is_filled, PartialArray.into_array, PartialArray.into_filled,
    PartialArray.neutralized, FilledArray.dataOut, filterMap_id_map_some,
    filterMap_id_take_map_some, Except.map]

lemma inv_fillStep {T : Type} {N : Nat} {pr : List T} {s : LoopSt T}
    (hInv : Inv N pr s) (hc : s.cursor < N) (x : T) :
    Inv N (pr ++ [x]) (fillStep s x) := by
  obtain ⟨hcf, hfN, hlen, hdata⟩ := hInv
  have hfn : s.filled < N := by omega
  have hcount : N - s.filled = (N - (s.filled + 1)) + 1 := by omega
  simp only [fillStep, Inv]
  refine ⟨by simp [hcf], by omega, by simp [hlen], ?_⟩
  rw [hdata, hcf, hcount, List.replicate_succ,
    show s.filled = (pr.map some).length by simp [hlen],
    set_append_length]
  simp [List.set]

lemma inv_runFor {T : Type} {N : Nat} :
    ∀ (j : Nat) (xs : List T) (s : LoopSt T) (pr : List T), Inv N pr s →
      Inv N (pr ++ xs.take (min j (min xs.length (N - s.filled)))) (runFor j xs s) := by
  intro j
  induction j with
  | zero => intro xs s pr h; simpa using h
  | succ j ih =>
    intro xs s pr h
    match xs with
    | [] => simpa [runFor] using h
    | x :: rest =>
      obtain ⟨hcf, hfle, hlen, hdata⟩ := h
      have hdataLen : s.data.length = N := by simp [hdata]; omega
      rw [runFor]
      by_cases hc : s.cursor < s.data.length
      · rw [if_pos hc]
        have hcN : s.cursor < N := hdataLen ▸ hc
        have hfn : s.filled < N := by omega
        have hstep := inv_fillStep ⟨hcf, hfle, hlen, hdata⟩ hcN x
        have hrec := ih rest (fillStep s x) (pr ++ [x]) hstep
        have hfs : (fillStep s x).filled = s.filled + 1 := rfl
        rw [hfs] at hrec
        have hmin : min (j + 1) (min (x :: rest).length (N - s.filled))
            = min j (min rest.length (N - (s.filled + 1))) + 1 := by
          simp only [List.length_cons]; omega
        rw [hmin, List.take_succ_cons]
        simpa [List.append_assoc] using hrec
      · rw [if_neg hc]
        have hfN : s.filled = N := by omega
        have hmin0 : min (j + 1) (min (x :: rest).length (N - s.filled)) = 0 := by
          simp only [List.length_cons]; omega
        rw [hmin0]
        simpa using ⟨hcf, hfle, hlen, hdata⟩

lemma inv_stateAt {T : Type} (N : Nat) (xs : List T) (j : Nat) :
    Inv N (xs.take (min j (min xs.length N))) (stateAt T N xs j) := by
  have h0 : Inv N [] (initSt T N) :=
    ⟨rfl, Nat.zero_le N, rfl, by simp [initSt]⟩
  simpa [stateAt] using inv_runFor j xs (initSt T N) [] h0

lemma take_len_of_map_some_append {T : Type} (pre : List T) (tail : List (Option T))
    (k : Nat) (hk : k = pre.length) : (pre.map some ++ tail).take k = pre.map some := by
  subst hk
  exact take_map_some_append pre tail

/-! Claim theorems. -/

/-- C1: for every element type `T`, every `N ≥ 0`, and every producer
sequence of exactly `N` elements, collecting into an array of capacity `N` —
via the `arraycollect!` expansion (`PartialArray::collect` / `into_array`)
or via `FromIter::from_iter` for `[T; N]` — returns success, and the i-th
element of the returned container equals the i-th produced element for
every `i < N` (the container is the produced list itself, in order). -/
theorem exact_fill_collects_in_order (T : Type) (N : Nat) (xs : List T)
    (h : xs.length = N) :
    arraycollect N xs = (Except.ok xs, []) ∧
    fromIter N xs = (Except.ok xs, []) ∧
    ∀ i : Nat, ((arraycollect N xs).1.toOption.getD [])[i]? = xs[i]? := by
  have h1 := arraycollect_exact_aux N xs h
  refine ⟨h1, by rw [← arraycollect_eq_fromIter_aux]; exact h1, ?_⟩
  intro i
  rw [h1]
  rfl

/-- Witness for C1 at `N = 3` with producer `[10, 20, 30]`. -/
theorem exact_fill_collects_in_order_witness :
    arraycollect 3 [10, 20, 30] = (Except.ok [10, 20, 30], ([] : List Nat)) :=
  (exact_fill_collects_in_order Nat 3 [10, 20, 30] rfl).1

/-- C2: for every `0 ≤ K < N`, feeding a producer of exactly `K` elements
into a collect of capacity `N` (either implementation) returns the failure
value `FillError` with `filled == K` and `capacity == N`; no partial
container is returned. -/
theorem undersupply_reports_filled_capacity (T : Type) (N K : Nat) (xs : List T)
    (hK : xs.length = K) (hKN : K < N) :
    arraycollect N xs = (Except.error (FillError.new K N), []) ∧
    fromIter N xs = (Except.error (FillError.new K N), []) := by
  subst hK
  have h1 := arraycollect_under_aux N xs hKN
  exact ⟨h1, by rw [← arraycollect_eq_fromIter_aux]; exact h1⟩

/-- Witness for C2 at `N = 20`, `K = 5` (the spec's concrete scenario). -/
theorem undersupply_reports_filled_capacity_witness :
    arraycollect 20 [0, 1, 2, 3, 4] = (Except.error (FillError.new 5 20), ([] : List Nat)) :=
  (undersupply_reports_filled_capacity Nat 20 5 [0, 1, 2, 3, 4] rfl (by decide)).1

/-- C3 counterexample: with capacity `N = 2` and the producer `[0, 1, 2]`,
both implementations succeed with the first two elements, but the producer
is left holding `[]` rather than `List.drop 2 [0, 1, 2] = [2]`: the loop
pulled the third — the (N+1)-th — element out of the producer and discarded
it, so the producer was asked for an (N+1)-th element, contrary to the
claim. -/
theorem oversupply_counterexample :
    arraycollect 2 [0, 1, 2] = (Except.ok [0, 1], ([] : List Nat)) ∧
    fromIter 2 [0, 1, 2] = (Except.ok [0, 1], ([] : List Nat)) ∧
    ([] : List Nat) ≠ List.drop 2 [0, 1, 2] :=
  ⟨rfl, rfl, by decide⟩

/-- C3 amended: for every producer with more than `N` elements, both
implementations succeed with exactly the first `N` elements in the array,
but `N + 1` elements are consumed from the producer: after the last slot is
filled, the `zip`-style loop pulls one further element and discards it, so
the producer is asked for (and loses) an (N+1)-th element while elements
beyond the (N+1)-th are never requested. -/
theorem oversupply_truncates_consuming_one_extra (T : Type) (N : Nat)
    (xs : List T) (h : N < xs.length) :
    arraycollect N xs = (Except.ok (xs.take N), xs.drop (N + 1)) ∧
    fromIter N xs = (Except.ok (xs.take N), xs.drop (N + 1)) := by
  have h1 := arraycollect_over_aux N xs h
  exact ⟨h1, by rw [← arraycollect_eq_fromIter_aux]; exact h1⟩

/-- Witness for the amended C3 at `N = 2` with producer `[0, 1, 2, 3]`. -/
theorem oversupply_truncates_consuming_one_extra_witness :
    arraycollect 2 [0, 1, 2, 3] = (Except.ok [0, 1], ([3] : List Nat)) :=
  (oversupply_truncates_consuming_one_extra Nat 2 [0, 1, 2, 3] (by decide)).1

/-- C4: after an undersupply failure with `filled == K`, exactly the `K`
elements written into slots `[0, K)` are destroyed — the destroyed list is
the produced list itself, in forward order, so each written element is
destroyed exactly once and no logical element twice — and the uninitialized
tail `[filled, N)` holds no element, so no element of the tail is touched.
Shown for the `PartialArray` dropped at the end of `collect` and for the
guard dropped on the error path of `from_iter`. -/
theorem undersupply_drops_exactly_written (T : Type) (N : Nat) (xs : List T)
    (h : xs.length < N) :
    (PartialArray.new T N).collect xs
      = (Except.error (FillError.new xs.length N), []) ∧
    PartialArray.droppedOnDrop (underState T N xs) = xs ∧
    (underState T N xs).data.drop (underState T N xs).filled
      = List.replicate (N - xs.length) none ∧
    ScopeExitGuard.droppedOnDrop (guardAtExit T N xs) = xs ∧
    (guardAtExit T N xs).value.drop (guardAtExit T N xs).data
      = List.replicate (N - xs.length) none := by
  have hloop := zipFillLoop_new_under N xs (Nat.le_of_lt h)
  have hus : underState T N xs
      = { data := xs.map some ++ List.replicate (N - xs.length) none,
          filled := xs.length } := by
    unfold underState
    rw [hloop]
  have hgu : guardAtExit T N xs
      = { value := xs.map some ++ List.replicate (N - xs.length) none,
          data := xs.length } := by
    unfold guardAtExit
    rw [fromIterLoop_eq_zipFillLoop, hloop]
  refine ⟨?_, ?_, ?_, ?_, ?_⟩
  · unfold PartialArray.collect PartialArray.new
    rw [hloop]
    simp [PartialArray.is_filled, Nat.ne_of_lt h, FillError.new]
  · rw [hus]
    unfold PartialArray.droppedOnDrop
    simp [take_map_some_append, filterMap_id_map_some]
  · rw [hus]
    simp [drop_map_some_append]
  · rw [hgu]
    unfold ScopeExitGuard.droppedOnDrop
    simp [take_map_some_append, filterMap_id_map_some]
  · rw [hgu]
    simp [drop_map_some_append]

/-- Witness for C4 at `N = 3` with producer `[4, 5]`: exactly the two
written elements are destroyed, by both finalizers. -/
theorem undersupply_drops_exactly_written_witness :
    PartialArray.droppedOnDrop (underState Nat 3 [4, 5]) = [4, 5] ∧
    ScopeExitGuard.droppedOnDrop (guardAtExit Nat 3 [4, 5]) = [4, 5] :=
  ⟨(undersupply_drops_exactly_written Nat 3 [4, 5] (by decide)).2.1,
   (undersupply_drops_exactly_written Nat 3 [4, 5] (by decide)).2.2.2.1⟩

/-- C5: on the success path (`filled == N`) the builder's cleanup
responsibility is neutralized before ownership of the slot storage is
transferred: `into_filled` first resets the fill counter to 0, so the
builder's transient `Drop` would destroy nothing, and the finished container
holds each collected element exactly once (it is the produced list itself),
to be destroyed only when the caller discards it; in the trait variant the
guard is emptied (`value = &mut []`, `data = 0`) and forgotten, so its
cleanup disposes nothing, and the elements live on only in the returned
array. -/
theorem success_neutralizes_cleanup (T : Type) (N : Nat) (xs : List T)
    (h : xs.length = N) :
    (PartialArray.new T N).collect xs
      = (Except.ok { data := xs.map some, filled := N }, []) ∧
    (PartialArray.neutralized { data := xs.map some, filled := N } :
      PartialArray T N).filled = 0 ∧
    PartialArray.droppedOnDrop
      (PartialArray.neutralized { data := xs.map some, filled := N } :
        PartialArray T N) = [] ∧
    (PartialArray.into_filled { data := xs.map some, filled := N } :
      FilledArray T N).filledField = 0 ∧
    PartialArray.into_array
      ({ data := xs.map some, filled := N } : PartialArray T N) = xs ∧
    (∀ g : ScopeExitGuard T,
      ScopeExitGuard.droppedOnDrop (ScopeExitGuard.neutralized g) = []) ∧
    fromIter N xs = (Except.ok xs, []) := by
  subst h
  refine ⟨?_, rfl, rfl, rfl, ?_, fun g => rfl, ?_⟩
  · unfold PartialArray.collect PartialArray.new
    rw [zipFillLoop_new_under xs.length xs (Nat.le_refl _)]
    simp [PartialArray.is_filled]
  · simp [PartialArray.into_array, PartialArray.into_filled, PartialArray.neutralized,
      FilledArray.dataOut, filterMap_id_map_some]
  · rw [← arraycollect_eq_fromIter_aux]
    exact arraycollect_exact_aux xs.length xs rfl

/-- Witness for C5 at `N = 2` with producer `[8, 9]`: the finished container
moved out of the neutralized builder is exactly the produced list. -/
theorem success_neutralizes_cleanup_witness :
    PartialArray.into_array
      ({ data := [8, 9].map some, filled := 2 } : PartialArray Nat 2) = [8, 9] :=
  (success_neutralizes_cleanup Nat 2 [8, 9] rfl).2.2.2.2.1

/-- C6: whenever the builder is discarded after `j` fill steps — the producer
ran out there, or unwinding interrupted feeding at that point — the cleanup
finalizer sees the fill counter's live value at the moment of discard
(`filled = j`, the value after all `j` increments) and disposes exactly
those `j` written elements, for both finalizers.  A finalizer that had
captured the counter by value at setup time (`data = 0`) would instead
dispose nothing, as the last conjunct shows. -/
theorem cleanup_sees_live_counter (T : Type) (N : Nat) (xs : List T) (j : Nat)
    (hj : j ≤ xs.length) (hjN : j ≤ N) :
    (stateAt T N xs j).filled = j ∧
    PartialArray.droppedOnDrop
      ({ data := (stateAt T N xs j).data, filled := (stateAt T N xs j).filled } :
        PartialArray T N) = xs.take j ∧
    ScopeExitGuard.droppedOnDrop
      { value := (stateAt T N xs j).data, data := (stateAt T N xs j).filled }
      = xs.take j ∧
    ScopeExitGuard.droppedOnDrop { value := (stateAt T N xs j).data, data := 0 } = [] := by
  have hInv := inv_stateAt N xs j
  have hmin : min j (min xs.length N) = j := by omega
  rw [hmin] at hInv
  obtain ⟨hcf, hfle, hlen, hdata⟩ := hInv
  have hfill : (stateAt T N xs j).filled = j := by
    rw [← hlen]
    simp [List.length_take]
    omega
  refine ⟨hfill, ?_, ?_, rfl⟩
  · unfold PartialArray.droppedOnDrop
    show ((stateAt T N xs j).data.take (stateAt T N xs j).filled).filterMap id = xs.take j
    rw [hdata, hfill, take_len_of_map_some_append _ _ j (by simp [List.length_take]; omega),
      filterMap_id_map_some]
  · unfold ScopeExitGuard.droppedOnDrop
    show ((stateAt T N xs j).data.take (stateAt T N xs j).filled).filterMap id = xs.take j
    rw [hdata, hfill, take_len_of_map_some_append _ _ j (by simp [List.length_take]; omega),
      filterMap_id_map_some]

/-- Witness for C6: builder discarded after 2 of 3 available fill steps with
capacity 4; the guard disposes exactly the two written elements. -/
theorem cleanup_sees_live_counter_witness :
    ScopeExitGuard.droppedOnDrop
      { value := (stateAt Nat 4 [1, 2, 3] 2).data,
        data := (stateAt Nat 4 [1, 2, 3] 2).filled } = [1, 2] :=
  (cleanup_sees_live_counter Nat 4 [1, 2, 3] 2 (by decide) (by decide)).2.2.1

/-- C8: the cleanup finalizer destroys exactly the elements at indices
`[0, filled)`, in forward index order (the destroyed list is the stored
prefix itself, in order), and performs no operation on the cells
`[filled, N)`: its output depends only on the first `filled` cells, so two
states agreeing there are cleaned up identically whatever sits in the tail.
Shown for `Drop for PartialArray` and for the `ScopeExitGuard` closure. -/
theorem finalizer_prefix_only :
    (∀ (T : Type) (pre : List T) (tail : List (Option T)),
      PartialArray.droppedOnDrop
        ({ data := pre.map some ++ tail, filled := pre.length } :
          PartialArray T (pre.length + tail.length)) = pre ∧
      ScopeExitGuard.droppedOnDrop
        { value := pre.map some ++ tail, data := pre.length } = pre) ∧
    (∀ (T : Type) (dataA dataB : List (Option T)) (f : Nat),
      dataA.take f = dataB.take f →
      PartialArray.droppedOnDrop
          ({ data := dataA, filled := f } : PartialArray T dataA.length)
        = PartialArray.droppedOnDrop
          ({ data := dataB, filled := f } : PartialArray T dataB.length) ∧
      ScopeExitGuard.droppedOnDrop { value := dataA, data := f }
        = ScopeExitGuard.droppedOnDrop { value := dataB, data := f }) := by
  constructor
  · intro T pre tail
    constructor
    · unfold PartialArray.droppedOnDrop
      simp [take_map_some_append, filterMap_id_map_some]
    · unfold ScopeExitGuard.droppedOnDrop
      simp [take_map_some_append, filterMap_id_map_some]
  · intro T dataA dataB f hpre
    unfold PartialArray.droppedOnDrop ScopeExitGuard.droppedOnDrop
    constructor
    · show (dataA.take f).filterMap id = (dataB.take f).filterMap id
      rw [hpre]
    · show (dataA.take f).filterMap id = (dataB.take f).filterMap id
      rw [hpre]

/-- Witness for C8: two states sharing the one-element filled prefix but
differing in the uninitialized tail are cleaned up identically. -/
theorem finalizer_prefix_only_witness :
    ScopeExitGuard.droppedOnDrop { value := [some 1, none], data := 1 }
      = ScopeExitGuard.droppedOnDrop { value := [some 1, some 9], data := 1 } :=
  (finalizer_prefix_only.2 Nat [some 1, none] [some 1, some 9] 1 (by decide)).2

/-- C9: the contiguous-prefix invariant holds at every point during and after
the fill loop: it holds at construction; every successful pairing — which
writes the element at the slot cursor and increments the counter by exactly
one, in one atomic step — preserves it; and after any number `j` of loop
beats the fill counter is an integer in `[0, N]`, cells `[0, filled)` hold
exactly the elements produced so far in production order, and cells
`[filled, N)` are uninitialized. -/
theorem fill_loop_invariant_holds :
    (∀ (T : Type) (N : Nat), Inv N [] (initSt T N)) ∧
    (∀ (T : Type) (N : Nat) (s : LoopSt T) (pr : List T) (x : T),
      Inv N pr s → s.cursor < N → Inv N (pr ++ [x]) (fillStep s x)) ∧
    (∀ (T : Type) (N : Nat) (xs : List T) (j : Nat),
      Inv N (xs.take (min j (min xs.length N))) (stateAt T N xs j)) := by
  refine ⟨?_, ?_, ?_⟩
  · intro T N
    exact ⟨rfl, Nat.zero_le N, rfl, by simp [initSt]⟩
  · intro T N s pr x hInv hc
    exact inv_fillStep hInv hc x
  · intro T N xs j
    exact inv_stateAt N xs j

/-- Witness for C9: one fill step from the freshly constructed builder of
capacity 2 preserves the invariant. -/
theorem fill_loop_invariant_holds_witness :
    Inv 2 [5] (fillStep (initSt Nat 2) 5) :=
  fill_loop_invariant_holds.2.1 Nat 2 (initSt Nat 2) [] 5
    ⟨rfl, by decide, rfl, by decide⟩ (by decide)

/-- C10: the two implementations are equivalent: for every element type,
capacity and producer sequence, the `arraycollect!` expansion
(`PartialArray::collect` followed by `into_array`) and
`FromIter::from_iter` for `[T; N]` return equal results — the same `Ok`
array, or a `FillError` with the same `filled` and `capacity` — and leave
the producer holding the same remainder, i.e. consume the same number of
elements. -/
theorem macro_and_trait_agree (T : Type) (N : Nat) (xs : List T) :
    arraycollect N xs = fromIter N xs :=
  arraycollect_eq_fromIter_aux N xs

/-- C7 counterexample: with capacity 0 and the non-empty producer `[7]`,
both implementations succeed with the empty container, but the producer is
left holding `[]` rather than `[7]`: one element was pulled and discarded,
contradicting the claim that zero elements are consumed. -/
theorem zero_capacity_counterexample :
    arraycollect 0 [7] = (Except.ok [], ([] : List Nat)) ∧
    fromIter 0 [7] = (Except.ok [], ([] : List Nat)) ∧
    ([] : List Nat) ≠ [7] :=
  ⟨rfl, rfl, by decide⟩

/-- C7 amended: for `N = 0` both implementations always succeed immediately
with an empty container; they consume zero elements when the producer is
empty, but pull (and discard) exactly one element when it is not, because
the loop polls the producer once before finding the slot side exhausted. -/
theorem zero_capacity_succeeds_consuming_at_most_one (T : Type) (xs : List T) :
    arraycollect 0 xs = (Except.ok [], xs.drop 1) ∧
    fromIter 0 xs = (Except.ok [], xs.drop 1) := by
  match xs with
  | [] => exact ⟨rfl, rfl⟩
  | x :: rest =>
    have h1 := arraycollect_over_aux 0 (x :: rest) (by simp)
    have h2 : arraycollect 0 (x :: rest) = (Except.ok [], rest) := by simpa using h1
    exact ⟨h2, by rw [← arraycollect_eq_fromIter_aux]; exact h2⟩

end Arraycollect
